import Mathlib

set_option maxRecDepth 100000

/-!
Verification of the pacifica-reads core: fill aggregation (order grouping),
position tracking, the cursor pager with resilient retry, and the rate
limiter, shallowly embedded from the TypeScript source.

Modelling conventions:
* JavaScript numbers and decimal strings that the code feeds through
  `parseFloat` are modelled as exact rationals (`ℚ`); timestamps as `Int`.
* `Number.prototype.toFixed(d)` is modelled by `toFixedQ d` (round to `d`
  decimals, ties toward positive infinity, per ECMA-262), and a field that
  the source stores as a `toFixed` string is modelled by the rational value
  of that string.
* `String.prototype.startsWith` / `includes` are modelled by `sideStarts` /
  `sideHas` over the character lists of the strings.
* JavaScript `Map` (insertion ordered) is modelled by an association list.
* `async` suspension (sleeps) is modelled by recording the wait durations.
-/

/-- `leadsWith pat s` models `s.startsWith(pat)` on character lists. -/
def leadsWith : List Char → List Char → Bool
  | [], _ => true
  | _ :: _, [] => false
  | p :: ps, c :: cs => p == c && leadsWith ps cs

/-- `hasSub pat s` models `s.includes(pat)` on character lists. -/
def hasSub (pat : List Char) : List Char → Bool
  | [] => leadsWith pat []
  | c :: cs => leadsWith pat (c :: cs) || hasSub pat cs

/-- Models `side.startsWith(pre)`. -/
def sideStarts (pre side : String) : Bool := leadsWith pre.data side.data

/-- Models `side.includes(pat)`. -/
def sideHas (pat side : String) : Bool := hasSub pat.data side.data

/-- Models `x.toFixed(d)` (ECMA-262: the integer `n` with `n / 10^d` closest
to `x`, larger `n` on ties), read back as a rational. -/
def toFixedQ (d : ℕ) (x : ℚ) : ℚ := ((x * 10 ^ d + 1 / 2).floor : ℚ) / 10 ^ d

/-- One exchange-reported execution event (interface `PositionHistoryItem`).
Decimal-string fields are modelled by their parsed rational values. -/
structure PositionHistoryItem where
  history_id : Int
  order_id : Option Int
  symbol : String
  amount : ℚ
  price : ℚ
  entry_price : Option ℚ
  fee : Option ℚ
  pnl : Option ℚ
  event_type : String
  side : String
  created_at : Int
  created_at_readable : Option String
  cause : Option String
deriving DecidableEq, Inhabited

/-- Interface `FillEvent` (the fields `toFillEvent` projects out). -/
structure FillEvent where
  history_id : Int
  amount : ℚ
  price : ℚ
  fee : Option ℚ
  pnl : Option ℚ
  event_type : String
  created_at : Int
  created_at_readable : Option String
  cause : Option String
deriving DecidableEq, Inhabited

/-- The grouping key `fill.order_id?.toString() || `single_${fill.history_id}``:
the `single_` text prefixed to `history_id` keeps the two key families
disjoint, so the key is modelled as a sum. -/
inductive OrderKey where
  | byOrder (o : Int)
  | byHistory (h : Int)
deriving DecidableEq

/-- A grouped trade (interface `GroupedTrade`); `toFixed` string fields are
modelled by their rational values, `trade_id` by the `OrderKey`. -/
structure GroupedTrade where
  trade_id : OrderKey
  order_id : Option Int
  symbol : String
  side : String
  total_amount : ℚ
  average_price : ℚ
  total_value : ℚ
  total_fee : ℚ
  total_pnl : ℚ
  entry_price : Option ℚ
  first_fill_time : Int
  last_fill_time : Int
  first_fill_time_readable : Option String
  last_fill_time_readable : Option String
  fills : List FillEvent
  fill_count : ℕ
deriving DecidableEq

/-- `TradeGrouper.toFillEvent`. -/
def toFillEvent (item : PositionHistoryItem) : FillEvent :=
  { history_id := item.history_id
    amount := item.amount
    price := item.price
    fee := item.fee
    pnl := item.pnl
    event_type := item.event_type
    created_at := item.created_at
    created_at_readable := item.created_at_readable
    cause := item.cause }

/-- The grouping key of a fill (see `OrderKey`). -/
def keyOf (f : PositionHistoryItem) : OrderKey :=
  match f.order_id with
  | some o => OrderKey.byOrder o
  | none => OrderKey.byHistory f.history_id

/-- Accumulated `totalAmount` of `createGroupedTrade`
(`parseFloat(fill.amount)` summed over the group). -/
def fillsAmount (fs : List PositionHistoryItem) : ℚ :=
  (fs.map (fun f => f.amount)).sum

/-- Accumulated `totalValue` of `createGroupedTrade` (`amount * price` summed). -/
def fillsValue (fs : List PositionHistoryItem) : ℚ :=
  (fs.map (fun f => f.amount * f.price)).sum

/-- Accumulated `totalFee` (`parseFloat(fill.fee || '0')` summed). -/
def fillsFee (fs : List PositionHistoryItem) : ℚ :=
  (fs.map (fun f => f.fee.getD 0)).sum

/-- Accumulated `totalPnl` (`parseFloat(fill.pnl || '0')` summed). -/
def fillsPnl (fs : List PositionHistoryItem) : ℚ :=
  (fs.map (fun f => f.pnl.getD 0)).sum

/-- `avgPrice = totalAmount > 0 ? totalValue / totalAmount : 0`. -/
def avgPriceOf (fs : List PositionHistoryItem) : ℚ :=
  if 0 < fillsAmount fs then fillsValue fs / fillsAmount fs else 0

/-- `TradeGrouper.createGroupedTrade` (the group is nonempty whenever the
grouper calls this; `default` stands for the out-of-bounds `fills[0]`). -/
def createGroupedTrade (tradeId : OrderKey) (fills : List PositionHistoryItem) :
    GroupedTrade :=
  let first := fills.head?.getD default
  let last := fills.getLast?.getD default
  { trade_id := tradeId
    order_id := first.order_id
    symbol := first.symbol
    side := first.side
    total_amount := toFixedQ 8 (fillsAmount fills)
    average_price := toFixedQ 6 (avgPriceOf fills)
    total_value := toFixedQ 2 (fillsValue fills)
    total_fee := toFixedQ 8 (fillsFee fills)
    total_pnl := toFixedQ 6 (fillsPnl fills)
    entry_price := first.entry_price
    first_fill_time := first.created_at
    last_fill_time := last.created_at
    first_fill_time_readable := first.created_at_readable
    last_fill_time_readable := last.created_at_readable
    fills := fills.map toFillEvent
    fill_count := fills.length }

/-- `[...fills].sort((a, b) => a.created_at - b.created_at)` (stable). -/
def sortFills (fills : List PositionHistoryItem) : List PositionHistoryItem :=
  List.insertionSort (fun a b => a.created_at ≤ b.created_at) fills

/-- Inserting one fill into the insertion-ordered group map
(`orderGroups.get(key).push(fill)`, creating the entry when absent). -/
def addFill (m : List (OrderKey × List PositionHistoryItem))
    (f : PositionHistoryItem) : List (OrderKey × List PositionHistoryItem) :=
  match m with
  | [] => [(keyOf f, [f])]
  | (k, g) :: rest =>
    if k = keyOf f then (k, g ++ [f]) :: rest
    else (k, g) :: addFill rest f

/-- The `orderGroups` map built by the grouping loop. -/
def groupFills (fills : List PositionHistoryItem) :
    List (OrderKey × List PositionHistoryItem) :=
  fills.foldl addFill []

/-- `TradeGrouper.groupByOrder`. -/
def groupByOrder (fills : List PositionHistoryItem) : List GroupedTrade :=
  (groupFills (sortFills fills)).map (fun kg => createGroupedTrade kg.1 kg.2)

/-- Position direction (`side.includes('long') ? 'long' : 'short'`). -/
inductive Dir where
  | long
  | short
deriving DecidableEq, Inhabited

/-- The string the source renders for a direction (used in `position_id`). -/
def Dir.str : Dir → String
  | Dir.long => "long"
  | Dir.short => "short"

/-- Position status; `opened` models the string `'open'`, `closed` the
string `'closed'`. -/
inductive PositionStatus where
  | opened
  | closed
deriving DecidableEq, Inhabited

/-- A complete position (interface `GroupedPosition`); the `'N/A'`-able
string fields `exit_price` and `pnl_percentage` are modelled as `Option ℚ`
(`none` = the `'N/A'` sentinel); the ISO rendering of `opened_at_readable` /
`closed_at_readable` is not modelled (pure timestamp formatting). -/
structure GroupedPosition where
  position_id : String
  symbol : String
  direction : Dir
  opened_at : Int
  closed_at : Int
  duration_hours : ℚ
  entry_price : ℚ
  exit_price : Option ℚ
  position_size : ℚ
  notional_value : ℚ
  total_pnl : ℚ
  total_fees : ℚ
  pnl_percentage : Option ℚ
  trades : List GroupedTrade
  trade_count : ℕ
  status : PositionStatus
deriving DecidableEq

/-- Direction read off a trade's `side` string. -/
def dirOf (side : String) : Dir :=
  if sideHas "long" side then Dir.long else Dir.short

/-- `sum(amount)` over a trade list (`parseFloat(trade.total_amount)` summed),
used for the legs of `createGroupedPosition`. -/
def legAmount (ts : List GroupedTrade) : ℚ :=
  (ts.map (fun t => t.total_amount)).sum

/-- `sum(amount * price)` over a trade list. -/
def legValue (ts : List GroupedTrade) : ℚ :=
  (ts.map (fun t => t.total_amount * t.average_price)).sum

/-- Volume-weighted leg price (`totalAmount > 0 ? value / amount : 0`). -/
def legPrice (ts : List GroupedTrade) : ℚ :=
  if 0 < legAmount ts then legValue ts / legAmount ts else 0

/-- `TradeGrouper.createGroupedPosition`. -/
def createGroupedPosition (symbol : String) (direction : Dir)
    (entryTrades exitTrades : List GroupedTrade)
    (openTime closeTime : Int) : GroupedPosition :=
  let allTrades := entryTrades ++ exitTrades
  let entryPrice := legPrice entryTrades
  let exitPrice := legPrice exitTrades
  let totalPnl := (allTrades.map (fun t => t.total_pnl)).sum
  let totalFees := (allTrades.map (fun t => t.total_fee)).sum
  let positionSize := max (legAmount entryTrades) (legAmount exitTrades)
  let notionalValue := positionSize * entryPrice
  let pnlPct :=
    if 0 < exitPrice ∧ 0 < entryPrice then
      (if direction = Dir.long then exitPrice - entryPrice
       else entryPrice - exitPrice) / entryPrice * 100
    else 0
  let durationHours := toFixedQ 2 (((closeTime - openTime : Int) : ℚ) / (1000 * 60 * 60))
  { position_id := symbol ++ "_" ++ direction.str ++ "_" ++ toString openTime
    symbol := symbol
    direction := direction
    opened_at := openTime
    closed_at := closeTime
    duration_hours := durationHours
    entry_price := toFixedQ 6 entryPrice
    exit_price := if 0 < exitPrice then some (toFixedQ 6 exitPrice) else none
    position_size := toFixedQ 8 positionSize
    notional_value := toFixedQ 2 notionalValue
    total_pnl := toFixedQ 6 totalPnl
    total_fees := toFixedQ 8 totalFees
    pnl_percentage := if 0 < exitPrice then some (toFixedQ 2 pnlPct) else none
    trades := allTrades
    trade_count := allTrades.length
    status := PositionStatus.closed }

/-- The per-symbol accumulator of `groupByPosition`. -/
structure OpenPos where
  direction : Dir
  size : ℚ
  entryTrades : List GroupedTrade
  exitTrades : List GroupedTrade
  startTime : Int
deriving DecidableEq

/-- The insertion-ordered `positionsBySymbol` map. -/
abbrev PosMap : Type := List (String × OpenPos)

/-- `positionsBySymbol.get(symbol)`. -/
def lookupSym : PosMap → String → Option OpenPos
  | [], _ => none
  | kv :: rest, s => if kv.1 = s then some kv.2 else lookupSym rest s

/-- `positionsBySymbol.set(symbol, v)` (update in place, else append). -/
def setSym : PosMap → String → OpenPos → PosMap
  | [], s, v => [(s, v)]
  | kv :: rest, s, v => if kv.1 = s then (s, v) :: rest else kv :: setSym rest s v

/-- `positionsBySymbol.delete(symbol)`. -/
def delSym : PosMap → String → PosMap
  | [], _ => []
  | kv :: rest, s => if kv.1 = s then delSym rest s else kv :: delSym rest s

/-- Processing one trade of the `groupByPosition` loop: the updated map and
the position emitted by this step, if any. -/
def stepPos (m : PosMap) (t : GroupedTrade) : PosMap × Option GroupedPosition :=
  let amount := t.total_amount
  if sideStarts "open_" t.side then
    let pos := (lookupSym m t.symbol).getD
      { direction := dirOf t.side, size := 0, entryTrades := [], exitTrades := []
        startTime := t.first_fill_time }
    (setSym m t.symbol
      { pos with size := pos.size + amount, entryTrades := pos.entryTrades ++ [t] },
     none)
  else if sideStarts "close_" t.side then
    let pos := (lookupSym m t.symbol).getD
      { direction := dirOf t.side, size := amount, entryTrades := [], exitTrades := []
        startTime := t.first_fill_time }
    let pos2 := { pos with size := pos.size - amount, exitTrades := pos.exitTrades ++ [t] }
    if |pos2.size| < 1 / 10000 then
      (delSym (setSym m t.symbol pos2) t.symbol,
       some (createGroupedPosition t.symbol pos2.direction pos2.entryTrades
         pos2.exitTrades pos2.startTime t.last_fill_time))
    else (setSym m t.symbol pos2, none)
  else (m, none)

/-- The accumulator size right after an exit trade is applied (what
`pos.size` is when the epsilon test runs; for a non-exit trade this is the
value the test would see had the trade been an exit). -/
def exitSize (m : PosMap) (t : GroupedTrade) : ℚ :=
  (match lookupSym m t.symbol with
   | some p => p.size
   | none => t.total_amount) - t.total_amount

/-- The `for (const trade of sorted)` loop of `groupByPosition`. -/
def runPos (m : PosMap) : List GroupedTrade → PosMap × List GroupedPosition
  | [] => (m, [])
  | t :: ts =>
    match stepPos m t with
    | (m2, none) => runPos m2 ts
    | (m2, some p) =>
      let r := runPos m2 ts
      (r.1, p :: r.2)

/-- Instrumented loop: each emitted position paired with the accumulator
size at its emission. -/
def runPosG (m : PosMap) : List GroupedTrade → List (GroupedPosition × ℚ)
  | [] => []
  | t :: ts =>
    match stepPos m t with
    | (m2, none) => runPosG m2 ts
    | (m2, some p) => (p, exitSize m t) :: runPosG m2 ts

/-- `[...trades].sort((a, b) => a.first_fill_time - b.first_fill_time)`. -/
def sortTrades (ts : List GroupedTrade) : List GroupedTrade :=
  List.insertionSort (fun a b => a.first_fill_time ≤ b.first_fill_time) ts

/-- Close timestamp of an end-of-stream (unclosed) accumulator. -/
def openCloseTime (pos : OpenPos) : Int :=
  match pos.exitTrades.getLast? with
  | some t => t.last_fill_time
  | none => pos.startTime

/-- The end-of-stream flush: one `status:'open'` position per remaining
accumulator, in map insertion order. -/
def flushOpen (m : PosMap) : List GroupedPosition :=
  m.map (fun kv =>
    { createGroupedPosition kv.1 kv.2.direction kv.2.entryTrades kv.2.exitTrades
        kv.2.startTime (openCloseTime kv.2) with status := PositionStatus.opened })

/-- `TradeGrouper.groupByPosition`. -/
def groupByPosition (trades : List GroupedTrade) : List GroupedPosition :=
  let r := runPos [] (sortTrades trades)
  List.insertionSort (fun a b => b.opened_at ≤ a.opened_at) (r.2 ++ flushOpen r.1)

/-- The API response envelope (interface `PacificaResponse<T>`); the
`has_more` / `code` fields are carried nowhere in the fetch loop and are
omitted. -/
structure Envelope (T : Type) where
  success : Bool
  data : List T
  next_cursor : Option String
  error : Option String
deriving DecidableEq

/-- One mocked HTTP response: status code, parsed JSON envelope (consulted
on 2xx), and the raw body text (consulted on non-retryable non-2xx). -/
structure HttpRes (T : Type) where
  status : ℕ
  envelope : Envelope T
  errorText : String
deriving DecidableEq

/-- Terminal errors `fetchWithRetry` can raise. -/
inductive FetchErr where
  | rateLimited
  | serverErr (status : ℕ)
  | httpErr (status : ℕ) (text : String)
deriving DecidableEq

/-- Observable outcome of one `fetchWithRetry` call: its result, how many
HTTP attempts it made, and the backoff sleeps (milliseconds) in order. -/
structure RetryTrace (T : Type) where
  result : Except FetchErr (Envelope T)
  attempts : ℕ
  waits : List ℕ

/-- `MAX_RETRIES = 3`. -/
def MAX_RETRIES : ℕ := 3

/-- Body of `PacificaFetcher.fetchWithRetry`, recursion bounded by fuel.
The endpoint is mocked as `resp : ℕ → HttpRes T` giving the response to
attempt number `n`.  The source recursion depth is at most
`MAX_RETRIES - attempt + 1`, so the fuel case `0` is unreachable from
`fetchWithRetry` (fuel `MAX_RETRIES + 1`, attempts counted from 1). -/
def retryGo (resp : ℕ → HttpRes T) : ℕ → ℕ → RetryTrace T
  | _, 0 => { result := Except.error FetchErr.rateLimited, attempts := 0, waits := [] }
  | attempt, fuel + 1 =>
    let r := resp attempt
    if r.status = 429 then
      let waitTime := 2 ^ attempt * 1000
      if attempt < MAX_RETRIES then
        let t := retryGo resp (attempt + 1) fuel
        { result := t.result, attempts := t.attempts + 1, waits := waitTime :: t.waits }
      else { result := Except.error FetchErr.rateLimited, attempts := 1, waits := [waitTime] }
    else if 500 ≤ r.status then
      let waitTime := 1000 * attempt
      if attempt < MAX_RETRIES then
        let t := retryGo resp (attempt + 1) fuel
        { result := t.result, attempts := t.attempts + 1, waits := waitTime :: t.waits }
      else { result := Except.error (FetchErr.serverErr r.status), attempts := 1
             waits := [waitTime] }
    else if ¬(200 ≤ r.status ∧ r.status < 300) then
      { result := Except.error (FetchErr.httpErr r.status r.errorText), attempts := 1
        waits := [] }
    else { result := Except.ok r.envelope, attempts := 1, waits := [] }

/-- `PacificaFetcher.fetchWithRetry(url, attempt)` against a mocked
endpoint.  A 2xx envelope is returned as-is — its `success` flag is never
consulted here, so `success:false` is never retried. -/
def fetchWithRetry (resp : ℕ → HttpRes T) (attempt : ℕ) : RetryTrace T :=
  retryGo resp attempt (MAX_RETRIES + 1)

/-- Errors the page loop can raise: `success:false` (the
`API Error: ...` throw), or the mocked page script ran out while the loop
still wanted a page. -/
inductive PageErr where
  | apiError (msg : String)
  | outOfPages
deriving DecidableEq

/-- `response.error || 'Unknown error'` (JS `||`: empty string is falsy). -/
def errTextOf (e : Option String) : String :=
  match e with
  | some s => if s = "" then "Unknown error" else s
  | none => "Unknown error"

/-- The `do ... while (cursor && cursor !== '')` loop of
`PacificaFetcher.fetchAllPages`, against a mocked in-order page script.
Returns the accumulated data (or the terminal error) together with the
request log: the `cursor` query parameter of each request issued, in
order (`none` = no cursor parameter). -/
def fetchPages (pages : List (Envelope T)) (cursor : Option String) :
    Except PageErr (List T) × List (Option String) :=
  match pages with
  | [] => (Except.error PageErr.outOfPages, [cursor])
  | p :: rest =>
    if p.success then
      match p.next_cursor with
      | none => (Except.ok p.data, [cursor])
      | some c =>
        if c = "" then (Except.ok p.data, [cursor])
        else
          let r := fetchPages rest (some c)
          (r.1.map (fun d => p.data ++ d), cursor :: r.2)
    else
      (Except.error (PageErr.apiError ("API Error: " ++ errTextOf p.error)), [cursor])

/-- `PacificaFetcher.fetchAllPages` (first request carries no cursor). -/
def fetchAllPages (pages : List (Envelope T)) :
    Except PageErr (List T) × List (Option String) :=
  fetchPages pages none

/-- `maxRequestsPerMinute = 120`. -/
def maxRequestsPerMinute : ℕ := 120

/-- Constructor default `delayMs = 500`. -/
def delayBetweenRequests : Int := 500

/-- Observable effect of one `RateLimiter.waitIfNeeded()` call. -/
structure LimiterStep where
  kept : List Int
  limitWait : Int
  delayWait : Int
  newStamps : List Int
deriving DecidableEq

/-- `RateLimiter.waitIfNeeded`, as a function of the current time and the
recorded timestamps.  `kept` is the filtered window, `limitWait` the
sliding-window sleep (0 when under the ceiling), `delayWait` the
unconditional inter-request delay, and `newStamps` the timestamp list after
the method returns (the pushed `Date.now()` is the entry time plus the
time slept; sleeps are modelled as exact). -/
def waitIfNeeded (now : Int) (stamps : List Int) : LimiterStep :=
  let oneMinuteAgo := now - 60000
  let kept := stamps.filter (fun t => decide (oneMinuteAgo < t))
  let limitWait :=
    if maxRequestsPerMinute ≤ kept.length then
      match kept with
      | [] => 0
      | oldest :: _ =>
        let w := oldest + 60000 - now
        if 0 < w then w else 0
    else 0
  { kept := kept
    limitWait := limitWait
    delayWait := delayBetweenRequests
    newStamps := kept ++ [now + limitWait + delayBetweenRequests] }

/-- C9: each `waitIfNeeded` call, as a function of the current time and the
recorded timestamps, first discards timestamps older than 60 seconds; if the
remaining count has reached the ceiling of 120 it suspends for exactly the
remaining time until the oldest kept timestamp exits the 60-second window
(and that wait is positive); under the ceiling there is no window wait; it
then unconditionally suspends the fixed 500 ms delay and records the current
time.  The model is a total function, so the operation cannot fail. -/
theorem rateLimiter_waitIfNeeded_spec (now : Int) (stamps : List Int) :
    (waitIfNeeded now stamps).kept = stamps.filter (fun t => decide (now - 60000 < t)) ∧
    ((waitIfNeeded now stamps).kept.length < maxRequestsPerMinute →
      (waitIfNeeded now stamps).limitWait = 0) ∧
    (∀ oldest rest, (waitIfNeeded now stamps).kept = oldest :: rest →
      maxRequestsPerMinute ≤ (waitIfNeeded now stamps).kept.length →
      (waitIfNeeded now stamps).limitWait = oldest + 60000 - now ∧
      0 < (waitIfNeeded now stamps).limitWait) ∧
    (waitIfNeeded now stamps).delayWait = 500 ∧
    (waitIfNeeded now stamps).newStamps =
      (waitIfNeeded now stamps).kept ++
        [now + (waitIfNeeded now stamps).limitWait + 500] := by
  refine ⟨rfl, ?_, ?_, rfl, rfl⟩
  · intro hlt
    simp only [waitIfNeeded] at hlt ⊢
    rw [if_neg (by omega)]
  · intro oldest rest hk hlen
    simp only [waitIfNeeded] at hk hlen ⊢
    have hmem : oldest ∈ stamps.filter (fun t => decide (now - 60000 < t)) := by
      rw [hk]; exact List.mem_cons_self _ _
    have hgt : now - 60000 < oldest := by
      have := List.of_mem_filter hmem
      simpa using this
    rw [if_pos hlen, hk]
    show (if 0 < oldest + 60000 - now then oldest + 60000 - now else 0) =
        oldest + 60000 - now ∧
      0 < (if 0 < oldest + 60000 - now then oldest + 60000 - now else 0)
    rw [if_pos (by omega)]
    exact ⟨rfl, by omega⟩

/-- Concrete instantiation of `rateLimiter_waitIfNeeded_spec` at a full
window of 120 timestamps. -/
theorem rateLimiter_waitIfNeeded_spec_witness :
    (waitIfNeeded 100000 (List.replicate 120 50000)).limitWait = 50000 + 60000 - 100000 ∧
    0 < (waitIfNeeded 100000 (List.replicate 120 50000)).limitWait :=
  (rateLimiter_waitIfNeeded_spec 100000 (List.replicate 120 50000)).2.2.1
    50000 (List.replicate 119 50000) (by decide) (by decide)

/-- C5: against an endpoint that answers 429, 429, then 200, `fetchWithRetry`
returns the successful payload after exactly two backoff waits of
`2^attempt` seconds (2000 ms then 4000 ms) and three total attempts; against
an endpoint answering 429 on attempts 1–3 (with `MAX_RETRIES = 3`; nothing
is assumed about any later attempt, so none is consulted), it raises the
rate-limit-exhausted error after three attempts. -/
theorem fetchWithRetry_429_behavior (T : Type) (resp resp2 : ℕ → HttpRes T)
    (h1 : (resp 1).status = 429) (h2 : (resp 2).status = 429)
    (h3 : (resp 3).status = 200)
    (g1 : (resp2 1).status = 429) (g2 : (resp2 2).status = 429)
    (g3 : (resp2 3).status = 429) :
    fetchWithRetry resp 1 =
      { result := Except.ok (resp 3).envelope, attempts := 3, waits := [2000, 4000] } ∧
    fetchWithRetry resp2 1 =
      { result := Except.error FetchErr.rateLimited, attempts := 3
        waits := [2000, 4000, 8000] } := by
  constructor
  · simp [fetchWithRetry, retryGo, MAX_RETRIES, h1, h2, h3]
  · simp [fetchWithRetry, retryGo, MAX_RETRIES, g1, g2, g3]

/-- Concrete instantiation of `fetchWithRetry_429_behavior`: a mocked
endpoint built from explicit responses. -/
theorem fetchWithRetry_429_behavior_witness :
    fetchWithRetry
        (fun n => if n < 3 then ⟨429, ⟨true, ([] : List ℕ), none, none⟩, ""⟩
          else ⟨200, ⟨true, [7], none, none⟩, ""⟩) 1 =
      { result := Except.ok ⟨true, [7], none, none⟩, attempts := 3
        waits := [2000, 4000] } ∧
    fetchWithRetry (fun _ => ⟨429, ⟨true, ([] : List ℕ), none, none⟩, ""⟩) 1 =
      { result := Except.error FetchErr.rateLimited, attempts := 3
        waits := [2000, 4000, 8000] } := by
  have h := fetchWithRetry_429_behavior ℕ
    (fun n => if n < 3 then ⟨429, ⟨true, ([] : List ℕ), none, none⟩, ""⟩
      else ⟨200, ⟨true, [7], none, none⟩, ""⟩)
    (fun _ => ⟨429, ⟨true, ([] : List ℕ), none, none⟩, ""⟩)
    (by decide) (by decide) (by decide) rfl rfl rfl
  exact h

/-- C6: an HTTP-200 response is returned by `fetchWithRetry` in one attempt
with no waits whatever its envelope says (so `success:false` is never
retried), and the page loop, seeing `success:false`, raises the
application-level error carrying the server-provided error text immediately:
it accumulates no data from that page (the result is the error) and issues
no request beyond the one that returned it (the request log is just that
request), regardless of any pages the mock could still serve. -/
theorem success_false_fails_fast (T : Type) (resp : ℕ → HttpRes T)
    (p : Envelope T) (rest : List (Envelope T)) (cursor : Option String)
    (hs : (resp 1).status = 200) (hp : p.success = false) :
    fetchWithRetry resp 1 =
      { result := Except.ok (resp 1).envelope, attempts := 1, waits := [] } ∧
    fetchPages (p :: rest) cursor =
      (Except.error (PageErr.apiError ("API Error: " ++ errTextOf p.error)),
        [cursor]) := by
  constructor
  · simp [fetchWithRetry, retryGo, MAX_RETRIES, hs]
  · simp [fetchPages, hp]

/-- Concrete instantiation of `success_false_fails_fast`. -/
theorem success_false_fails_fast_witness :
    fetchWithRetry (fun _ => ⟨200, ⟨false, ([] : List ℕ), none, some "bad account"⟩, ""⟩) 1 =
      { result := Except.ok ⟨false, ([] : List ℕ), none, some "bad account"⟩
        attempts := 1, waits := [] } ∧
    fetchPages [(⟨false, ([] : List ℕ), none, some "bad account"⟩ : Envelope ℕ),
        ⟨true, [5], none, none⟩] none =
      (Except.error (PageErr.apiError ("API Error: " ++ errTextOf (some "bad account"))),
        [none]) :=
  success_false_fails_fast ℕ
    (fun _ => ⟨200, ⟨false, ([] : List ℕ), none, some "bad account"⟩, ""⟩)
    ⟨false, ([] : List ℕ), none, some "bad account"⟩
    [⟨true, [5], none, none⟩] none rfl rfl

lemma fetchPages_step (T : Type) (p : Envelope T) (rest : List (Envelope T))
    (cursor : Option String) (c : String) (hp : p.success = true)
    (hc : p.next_cursor = some c) (hcne : c ≠ "") :
    fetchPages (p :: rest) cursor =
      ((fetchPages rest (some c)).1.map (fun d => p.data ++ d),
        cursor :: (fetchPages rest (some c)).2) := by
  simp only [fetchPages, hp, hc, if_true]
  rw [if_neg hcne]

lemma fetchPages_ok (T : Type) (pages : List (Envelope T)) :
    ∀ cursor, pages ≠ [] →
    (∀ p ∈ pages, p.success = true) →
    (∀ p ∈ pages.dropLast, ∃ c, p.next_cursor = some c ∧ c ≠ "") →
    (∀ p, pages.getLast? = some p → p.next_cursor = none ∨ p.next_cursor = some "") →
    fetchPages pages cursor =
      (Except.ok (pages.flatMap Envelope.data),
        cursor :: pages.dropLast.map Envelope.next_cursor) := by
  induction pages with
  | nil => intro cursor hne _ _ _; exact absurd rfl hne
  | cons p rest ih =>
    intro cursor _ hsucc hmid hlast
    have hp : p.success = true := hsucc p (List.mem_cons_self _ _)
    cases rest with
    | nil =>
      rcases hlast p (by simp) with h | h
      · simp [fetchPages, hp, h]
      · simp [fetchPages, hp, h]
    | cons q rs =>
      obtain ⟨c, hc, hcne⟩ := hmid p (by simp)
      have ihr := ih (some c) (by simp)
        (fun x hx => hsucc x (List.mem_cons_of_mem _ hx))
        (fun x hx => hmid x (by simpa using List.mem_cons_of_mem p hx))
        (fun x hx => hlast x (by simpa using hx))
      rw [fetchPages_step T p (q :: rs) cursor c hp hc hcne, ihr]
      simp [hc, Except.map]

/-- C4: for every nonempty, all-successful page sequence in which each
non-final page carries a nonempty cursor and the final page's cursor is
absent or empty, `fetchAllPages` returns exactly the concatenation of the
pages' `data` arrays in page order; its request log shows the first request
issued without a cursor, each subsequent request issued with the cursor the
previous page returned, and no request after the page whose cursor is
absent or empty (exactly one request per page). -/
theorem fetchAllPages_concatenation (T : Type) (pages : List (Envelope T))
    (hne : pages ≠ [])
    (hsucc : ∀ p ∈ pages, p.success = true)
    (hmid : ∀ p ∈ pages.dropLast, ∃ c, p.next_cursor = some c ∧ c ≠ "")
    (hlast : ∀ p, pages.getLast? = some p →
      p.next_cursor = none ∨ p.next_cursor = some "") :
    fetchAllPages pages =
      (Except.ok (pages.flatMap Envelope.data),
        none :: pages.dropLast.map Envelope.next_cursor) ∧
    (fetchAllPages pages).2.length = pages.length := by
  have h := fetchPages_ok T pages none hne hsucc hmid hlast
  refine ⟨h, ?_⟩
  show (fetchPages pages none).2.length = pages.length
  rw [h]
  have h1 : pages.dropLast.length = pages.length - 1 := List.length_dropLast pages
  have h2 : 0 < pages.length := List.length_pos.mpr hne
  simp only [List.length_cons, List.length_map, h1]
  omega

/-- Concrete instantiation of `fetchAllPages_concatenation` on a three-page
mock whose final page has an empty cursor. -/
theorem fetchAllPages_concatenation_witness :
    fetchAllPages [(⟨true, [1, 2], some "a", none⟩ : Envelope ℕ),
        ⟨true, [3], some "b", none⟩, ⟨true, [4, 5], some "", none⟩] =
      (Except.ok [1, 2, 3, 4, 5], [none, some "a", some "b"]) ∧
    (fetchAllPages [(⟨true, [1, 2], some "a", none⟩ : Envelope ℕ),
        ⟨true, [3], some "b", none⟩, ⟨true, [4, 5], some "", none⟩]).2.length = 3 := by
  have h := fetchAllPages_concatenation ℕ
    [⟨true, [1, 2], some "a", none⟩, ⟨true, [3], some "b", none⟩,
      ⟨true, [4, 5], some "", none⟩]
    (List.cons_ne_nil _ _)
    (by intro p hp; simp at hp; rcases hp with h | h | h <;> simp [h])
    (by intro p hp; simp at hp
        rcases hp with h | h
        · exact ⟨"a", by rw [h], by decide⟩
        · exact ⟨"b", by rw [h], by decide⟩)
    (by intro p hp; simp at hp; subst hp; right; rfl)
  simpa using h

lemma ratFloor_intFloor (q : ℚ) : (q.floor : ℤ) = ⌊q⌋ := by
  rw [Rat.floor_def', Rat.floor_def]

lemma abs_toFixedQ_sub (d : ℕ) (x : ℚ) : |toFixedQ d x - x| ≤ 1 / (2 * 10 ^ d) := by
  rw [toFixedQ, ratFloor_intFloor]
  have hpow : (0 : ℚ) < 10 ^ d := by positivity
  have hfl : ((⌊x * 10 ^ d + 1 / 2⌋ : ℤ) : ℚ) ≤ x * 10 ^ d + 1 / 2 :=
    Int.floor_le _
  have hfg : x * 10 ^ d + 1 / 2 < (⌊x * 10 ^ d + 1 / 2⌋ : ℤ) + 1 :=
    Int.lt_floor_add_one _
  have habs : |((⌊x * 10 ^ d + 1 / 2⌋ : ℤ) : ℚ) - x * 10 ^ d| ≤ 1 / 2 := by
    rw [abs_le]
    constructor <;> linarith
  have hx : x = x * 10 ^ d / 10 ^ d := by field_simp
  calc |((⌊x * 10 ^ d + 1 / 2⌋ : ℤ) : ℚ) / 10 ^ d - x|
      = |((⌊x * 10 ^ d + 1 / 2⌋ : ℤ) : ℚ) - x * 10 ^ d| / 10 ^ d := by
        rw [show ((⌊x * 10 ^ d + 1 / 2⌋ : ℤ) : ℚ) / 10 ^ d - x
            = (((⌊x * 10 ^ d + 1 / 2⌋ : ℤ) : ℚ) - x * 10 ^ d) / 10 ^ d by
          field_simp
          ring]
        rw [abs_div, abs_of_pos hpow]
    _ ≤ (1 / 2) / 10 ^ d := by
        exact div_le_div_of_nonneg_right habs hpow.le |>.trans_eq rfl
    _ = 1 / (2 * 10 ^ d) := by ring

lemma sum_zero_of_nonneg (l : List ℚ) (h : ∀ x ∈ l, 0 ≤ x) (hs : l.sum = 0) :
    ∀ x ∈ l, x = 0 := by
  induction l with
  | nil => intro x hx; cases hx
  | cons a l ih =>
    have ha : 0 ≤ a := h a (List.mem_cons_self _ _)
    have hl : 0 ≤ l.sum := List.sum_nonneg (fun x hx => h x (List.mem_cons_of_mem _ hx))
    rw [List.sum_cons] at hs
    intro x hx
    rcases List.mem_cons.mp hx with rfl | hx
    · linarith
    · exact ih (fun y hy => h y (List.mem_cons_of_mem _ hy)) (by linarith) x hx

lemma fillsValue_eq_amount_mul_avg (fs : List PositionHistoryItem)
    (h : ∀ f ∈ fs, 0 ≤ f.amount) :
    fillsValue fs = fillsAmount fs * avgPriceOf fs := by
  by_cases h0 : 0 < fillsAmount fs
  · rw [avgPriceOf, if_pos h0]
    field_simp
  · rw [avgPriceOf, if_neg h0, mul_zero]
    have hnn : ∀ x ∈ fs.map (fun f => f.amount), 0 ≤ x := by
      intro x hx
      obtain ⟨f, hf, rfl⟩ := List.mem_map.mp hx
      exact h f hf
    have ha : fillsAmount fs = 0 := le_antisymm (not_lt.mp h0) (List.sum_nonneg hnn)
    apply List.sum_eq_zero
    intro x hx
    obtain ⟨f, hf, rfl⟩ := List.mem_map.mp hx
    have hf0 : f.amount = 0 :=
      sum_zero_of_nonneg _ hnn ha f.amount (List.mem_map.mpr ⟨f, hf, rfl⟩)
    rw [hf0, zero_mul]

/-- C2: for every group of fills with nonnegative amounts (amounts are
base-asset quantities), the emitted Trade's `total_amount` is the sum of the
fills' amounts at the stated 8-decimal precision (with rounding error at
most half an ulp), `average_price` is the volume-weighted average price —
value sum over amount sum, or 0 when the amount sum is 0 — at 6-decimal
precision, and `total_value` equals `total_amount * average_price` (on the
unrounded accumulators) at its stated 2-decimal precision. -/
theorem createGroupedTrade_aggregates (k : OrderKey) (fs : List PositionHistoryItem)
    (h : ∀ f ∈ fs, 0 ≤ f.amount) :
    (createGroupedTrade k fs).total_amount = toFixedQ 8 (fillsAmount fs) ∧
    |(createGroupedTrade k fs).total_amount - fillsAmount fs| ≤ 1 / (2 * 10 ^ 8) ∧
    (createGroupedTrade k fs).average_price =
      toFixedQ 6 (if fillsAmount fs = 0 then 0 else fillsValue fs / fillsAmount fs) ∧
    (createGroupedTrade k fs).total_value =
      toFixedQ 2 (fillsAmount fs * avgPriceOf fs) ∧
    |(createGroupedTrade k fs).total_value - fillsAmount fs * avgPriceOf fs| ≤
      1 / (2 * 10 ^ 2) := by
  have hnn : 0 ≤ fillsAmount fs :=
    List.sum_nonneg (by
      intro x hx
      obtain ⟨f, hf, rfl⟩ := List.mem_map.mp hx
      exact h f hf)
  have havg : avgPriceOf fs =
      (if fillsAmount fs = 0 then 0 else fillsValue fs / fillsAmount fs) := by
    rw [avgPriceOf]
    rcases lt_or_eq_of_le hnn with hlt | heq
    · rw [if_pos hlt, if_neg (ne_of_gt hlt)]
    · rw [if_neg (by rw [← heq]; exact lt_irrefl _), if_pos heq.symm]
  have hval : fillsValue fs = fillsAmount fs * avgPriceOf fs :=
    fillsValue_eq_amount_mul_avg fs h
  refine ⟨rfl, ?_, ?_, ?_, ?_⟩
  · exact abs_toFixedQ_sub 8 (fillsAmount fs)
  · show toFixedQ 6 (avgPriceOf fs) = _
    rw [havg]
  · show toFixedQ 2 (fillsValue fs) = _
    rw [hval]
  · show |toFixedQ 2 (fillsValue fs) - fillsAmount fs * avgPriceOf fs| ≤ _
    rw [← hval]
    exact abs_toFixedQ_sub 2 (fillsValue fs)

/-- Concrete instantiation of `createGroupedTrade_aggregates` on a two-fill
group. -/
theorem createGroupedTrade_aggregates_witness :
    (createGroupedTrade (OrderKey.byOrder 1)
        [{ history_id := 10, order_id := some 1, symbol := "BTC", amount := 1
           price := 100, entry_price := none, fee := some (1/10), pnl := none
           event_type := "fulfill_taker", side := "open_long", created_at := 1000
           created_at_readable := none, cause := none },
         { history_id := 11, order_id := some 1, symbol := "BTC", amount := 2
           price := 103, entry_price := none, fee := none, pnl := none
           event_type := "fulfill_taker", side := "open_long", created_at := 2000
           created_at_readable := none, cause := none }]).average_price =
      toFixedQ 6 (if fillsAmount
          [{ history_id := 10, order_id := some 1, symbol := "BTC", amount := 1
             price := 100, entry_price := none, fee := some (1/10), pnl := none
             event_type := "fulfill_taker", side := "open_long", created_at := 1000
             created_at_readable := none, cause := none },
           { history_id := 11, order_id := some 1, symbol := "BTC", amount := 2
             price := 103, entry_price := none, fee := none, pnl := none
             event_type := "fulfill_taker", side := "open_long", created_at := 2000
             created_at_readable := none, cause := none }] = 0 then 0
        else fillsValue
          [{ history_id := 10, order_id := some 1, symbol := "BTC", amount := 1
             price := 100, entry_price := none, fee := some (1/10), pnl := none
             event_type := "fulfill_taker", side := "open_long", created_at := 1000
             created_at_readable := none, cause := none },
           { history_id := 11, order_id := some 1, symbol := "BTC", amount := 2
             price := 103, entry_price := none, fee := none, pnl := none
             event_type := "fulfill_taker", side := "open_long", created_at := 2000
             created_at_readable := none, cause := none }] / fillsAmount
          [{ history_id := 10, order_id := some 1, symbol := "BTC", amount := 1
             price := 100, entry_price := none, fee := some (1/10), pnl := none
             event_type := "fulfill_taker", side := "open_long", created_at := 1000
             created_at_readable := none, cause := none },
           { history_id := 11, order_id := some 1, symbol := "BTC", amount := 2
             price := 103, entry_price := none, fee := none, pnl := none
             event_type := "fulfill_taker", side := "open_long", created_at := 2000
             created_at_readable := none, cause := none }]) :=
  (createGroupedTrade_aggregates (OrderKey.byOrder 1) _ (by decide)).2.2.1

lemma addFill_flat (m : List (OrderKey × List PositionHistoryItem))
    (f : PositionHistoryItem) :
    ((addFill m f).flatMap Prod.snd).Perm ((m.flatMap Prod.snd) ++ [f]) := by
  induction m with
  | nil => simp [addFill]
  | cons kv rest ih =>
    obtain ⟨k, g⟩ := kv
    by_cases hk : k = keyOf f
    · simp only [addFill, if_pos hk, List.flatMap_cons]
      have h1 : (g ++ [f]) ++ rest.flatMap Prod.snd
          = g ++ ([f] ++ rest.flatMap Prod.snd) := by rw [List.append_assoc]
      have h2 : (g ++ rest.flatMap Prod.snd) ++ [f]
          = g ++ (rest.flatMap Prod.snd ++ [f]) := by rw [List.append_assoc]
      rw [h1, h2]
      exact List.Perm.append_left g List.perm_append_comm
    · simp only [addFill, if_neg hk, List.flatMap_cons]
      have h2 : (g ++ rest.flatMap Prod.snd) ++ [f]
          = g ++ (rest.flatMap Prod.snd ++ [f]) := by rw [List.append_assoc]
      rw [h2]
      exact List.Perm.append_left g ih

lemma foldl_addFill_flat (l : List PositionHistoryItem) :
    ∀ m, ((l.foldl addFill m).flatMap Prod.snd).Perm ((m.flatMap Prod.snd) ++ l) := by
  induction l with
  | nil => intro m; simp
  | cons f l ih =>
    intro m
    rw [List.foldl_cons]
    refine (ih (addFill m f)).trans ?_
    refine ((addFill_flat m f).append_right l).trans ?_
    rw [List.append_assoc]
    exact (List.singleton_append ▸ List.Perm.refl _)

lemma groupFills_flat (l : List PositionHistoryItem) :
    ((groupFills l).flatMap Prod.snd).Perm l := by
  simpa [groupFills] using foldl_addFill_flat l []

lemma addFill_keys (m : List (OrderKey × List PositionHistoryItem))
    (f : PositionHistoryItem) :
    (addFill m f).map Prod.fst =
      if keyOf f ∈ m.map Prod.fst then m.map Prod.fst
      else m.map Prod.fst ++ [keyOf f] := by
  induction m with
  | nil => simp [addFill]
  | cons kv rest ih =>
    obtain ⟨k, g⟩ := kv
    by_cases hk : k = keyOf f
    · simp [addFill, hk]
    · have hne : ¬ keyOf f = k := fun h => hk h.symm
      simp only [addFill, if_neg hk, List.map_cons, List.mem_cons, hne, false_or, ih]
      by_cases hmem : keyOf f ∈ rest.map Prod.fst
      · simp [hmem]
      · simp [hmem]

lemma addFill_keys_nodup (m : List (OrderKey × List PositionHistoryItem))
    (f : PositionHistoryItem) (h : (m.map Prod.fst).Nodup) :
    ((addFill m f).map Prod.fst).Nodup := by
  rw [addFill_keys]
  by_cases hmem : keyOf f ∈ m.map Prod.fst
  · rwa [if_pos hmem]
  · rw [if_neg hmem]
    rw [List.nodup_append]
    exact ⟨h, List.nodup_singleton _, by
      intro a ha hb
      rw [List.mem_singleton] at hb
      exact hmem (hb ▸ ha)⟩

lemma groupFills_keys_nodup (l : List PositionHistoryItem) :
    ((groupFills l).map Prod.fst).Nodup := by
  rw [groupFills]
  have : ∀ m : List (OrderKey × List PositionHistoryItem),
      (m.map Prod.fst).Nodup → ((l.foldl addFill m).map Prod.fst).Nodup := by
    induction l with
    | nil => intro m hm; exact hm
    | cons f l ih =>
      intro m hm
      rw [List.foldl_cons]
      exact ih (addFill m f) (addFill_keys_nodup m f hm)
  exact this [] (by simp)

lemma addFill_groups (m : List (OrderKey × List PositionHistoryItem))
    (f : PositionHistoryItem)
    (h : ∀ kg ∈ m, ∀ x ∈ kg.2, keyOf x = kg.1) :
    ∀ kg ∈ addFill m f, ∀ x ∈ kg.2, keyOf x = kg.1 := by
  induction m with
  | nil =>
    intro kg hkg x hx
    simp [addFill] at hkg
    subst hkg
    simp at hx
    subst hx
    rfl
  | cons kv rest ih =>
    obtain ⟨k, g⟩ := kv
    by_cases hk : k = keyOf f
    · intro kg hkg x hx
      rw [addFill, if_pos hk] at hkg
      rcases List.mem_cons.mp hkg with rfl | hm
      · rcases List.mem_append.mp hx with hg | hf
        · exact h (k, g) (List.mem_cons_self _ _) x hg
        · rw [List.mem_singleton] at hf
          subst hf
          exact hk.symm
      · exact h kg (List.mem_cons_of_mem _ hm) x hx
    · intro kg hkg x hx
      rw [addFill, if_neg hk] at hkg
      rcases List.mem_cons.mp hkg with rfl | hm
      · exact h (k, g) (List.mem_cons_self _ _) x hx
      · exact ih (fun kg2 hkg2 => h kg2 (List.mem_cons_of_mem _ hkg2)) kg hm x hx

lemma groupFills_groups (l : List PositionHistoryItem) :
    ∀ kg ∈ groupFills l, ∀ x ∈ kg.2, keyOf x = kg.1 := by
  rw [groupFills]
  have : ∀ m : List (OrderKey × List PositionHistoryItem),
      (∀ kg ∈ m, ∀ x ∈ kg.2, keyOf x = kg.1) →
      ∀ kg ∈ l.foldl addFill m, ∀ x ∈ kg.2, keyOf x = kg.1 := by
    induction l with
    | nil => intro m hm; exact hm
    | cons f l ih =>
      intro m hm
      rw [List.foldl_cons]
      exact ih (addFill m f) (addFill_groups m f hm)
  exact this [] (by simp)

lemma groupByOrder_flat (fills : List PositionHistoryItem) :
    (groupByOrder fills).flatMap GroupedTrade.fills =
      ((groupFills (sortFills fills)).flatMap Prod.snd).map toFillEvent := by
  rw [groupByOrder]
  generalize groupFills (sortFills fills) = l
  induction l with
  | nil => simp
  | cons kg rest ih =>
    simp only [List.map_cons, List.flatMap_cons, List.map_append, ih]
    rfl

lemma groupByOrder_keys (fills : List PositionHistoryItem) :
    (groupByOrder fills).map GroupedTrade.trade_id =
      (groupFills (sortFills fills)).map Prod.fst := by
  rw [groupByOrder]
  generalize groupFills (sortFills fills) = l
  induction l with
  | nil => simp
  | cons kg rest ih =>
    simp only [List.map_cons, ih]
    rfl

/-- C1: `groupByOrder` partitions its input fills: the concatenation of the
emitted Trades' fills lists is a permutation of the input (no fill
duplicated or lost, each fill in exactly one group, counted with
multiplicity), the emitted Trades carry pairwise distinct grouping keys,
and every fill in a Trade's fills list comes from an input fill whose key —
its `order_id` when present, else the singleton key from its `history_id` —
is that Trade's key. -/
theorem groupByOrder_partition (fills : List PositionHistoryItem) :
    ((groupByOrder fills).flatMap GroupedTrade.fills).Perm (fills.map toFillEvent) ∧
    ((groupByOrder fills).map GroupedTrade.trade_id).Nodup ∧
    ∀ t ∈ groupByOrder fills, ∀ e ∈ t.fills,
      ∃ f ∈ fills, keyOf f = t.trade_id ∧ toFillEvent f = e := by
  refine ⟨?_, ?_, ?_⟩
  · rw [groupByOrder_flat]
    exact ((groupFills_flat (sortFills fills)).map toFillEvent).trans
      ((List.perm_insertionSort _ fills).map toFillEvent)
  · rw [groupByOrder_keys]
    exact groupFills_keys_nodup _
  · intro t ht e he
    rw [groupByOrder] at ht
    obtain ⟨kg, hkg, rfl⟩ := List.mem_map.mp ht
    have hfills : (createGroupedTrade kg.1 kg.2).fills = kg.2.map toFillEvent := rfl
    rw [hfills] at he
    obtain ⟨x, hx, rfl⟩ := List.mem_map.mp he
    refine ⟨x, ?_, ?_, rfl⟩
    · have hx2 : x ∈ (groupFills (sortFills fills)).flatMap Prod.snd :=
        List.mem_flatMap.mpr ⟨kg, hkg, hx⟩
      have hx3 := (groupFills_flat (sortFills fills)).mem_iff.mp hx2
      exact ((List.perm_insertionSort _ fills).mem_iff).mp hx3
    · have hkey := groupFills_groups (sortFills fills) kg hkg x hx
      rw [hkey]
      rfl

/-- Fill used by the `groupByOrder_partition` witness. -/
def c1fillA : PositionHistoryItem :=
  { history_id := 1, order_id := some 5, symbol := "SOL", amount := 1
    price := 100, entry_price := none, fee := none, pnl := none
    event_type := "fulfill_taker", side := "open_long", created_at := 1000
    created_at_readable := none, cause := none }

/-- Fill used by the `groupByOrder_partition` witness. -/
def c1fillB : PositionHistoryItem :=
  { history_id := 2, order_id := some 5, symbol := "SOL", amount := 1
    price := 110, entry_price := none, fee := none, pnl := none
    event_type := "fulfill_taker", side := "open_long", created_at := 2000
    created_at_readable := none, cause := none }

/-- Concrete instantiation of `groupByOrder_partition`: both fills of one
order land in the single emitted trade. -/
theorem groupByOrder_partition_witness :
    ∃ f ∈ [c1fillA, c1fillB],
      keyOf f = (createGroupedTrade (OrderKey.byOrder 5) [c1fillA, c1fillB]).trade_id ∧
      toFillEvent f = toFillEvent c1fillA :=
  (groupByOrder_partition [c1fillA, c1fillB]).2.2
    (createGroupedTrade (OrderKey.byOrder 5) [c1fillA, c1fillB])
    (by with_unfolding_all decide) (toFillEvent c1fillA) (by with_unfolding_all decide)

lemma open_close_excl (s : String) :
    ¬(sideStarts "open_" s = true ∧ sideStarts "close_" s = true) := by
  rintro ⟨h1, h2⟩
  rw [sideStarts] at h1 h2
  have ho : "open_".data = 'o' :: ['p', 'e', 'n', '_'] := rfl
  have hc : "close_".data = 'c' :: ['l', 'o', 's', 'e', '_'] := rfl
  rw [ho] at h1
  rw [hc] at h2
  cases hd : s.data with
  | nil =>
    rw [hd] at h1
    exact absurd h1 (by simp [leadsWith])
  | cons c cs =>
    rw [hd] at h1 h2
    simp only [leadsWith, Bool.and_eq_true, beq_iff_eq] at h1 h2
    exact absurd (h1.1.trans h2.1.symm) (by decide)

lemma lookupSym_delSym (m : PosMap) (s : String) :
    lookupSym (delSym m s) s = none := by
  induction m with
  | nil => rfl
  | cons kv rest ih =>
    by_cases h : kv.1 = s
    · rw [delSym, if_pos h]
      exact ih
    · rw [delSym, if_neg h, lookupSym, if_neg h]
      exact ih

lemma lookupSym_mem (m : PosMap) (s : String) (v : OpenPos)
    (h : lookupSym m s = some v) : (s, v) ∈ m := by
  induction m with
  | nil => cases h
  | cons kv rest ih =>
    by_cases hk : kv.1 = s
    · rw [lookupSym, if_pos hk] at h
      obtain ⟨k0, v0⟩ := kv
      obtain rfl : v0 = v := by simpa using h
      simp at hk
      subst hk
      exact List.mem_cons_self _ _
    · rw [lookupSym, if_neg hk] at h
      exact List.mem_cons_of_mem _ (ih h)

lemma setSym_mem (m : PosMap) (s : String) (v : OpenPos) :
    ∀ kv ∈ setSym m s v, kv = (s, v) ∨ kv ∈ m := by
  induction m with
  | nil =>
    intro kv hkv
    simp [setSym] at hkv
    exact Or.inl hkv
  | cons kv0 rest ih =>
    intro kv hkv
    by_cases hk : kv0.1 = s
    · rw [setSym, if_pos hk] at hkv
      rcases List.mem_cons.mp hkv with rfl | hm
      · exact Or.inl rfl
      · exact Or.inr (List.mem_cons_of_mem _ hm)
    · rw [setSym, if_neg hk] at hkv
      rcases List.mem_cons.mp hkv with rfl | hm
      · exact Or.inr (List.mem_cons_self _ _)
      · rcases ih kv hm with h | h
        · exact Or.inl h
        · exact Or.inr (List.mem_cons_of_mem _ h)

lemma delSym_mem (m : PosMap) (s : String) :
    ∀ kv ∈ delSym m s, kv ∈ m := by
  induction m with
  | nil => intro kv hkv; cases hkv
  | cons kv0 rest ih =>
    intro kv hkv
    by_cases hk : kv0.1 = s
    · rw [delSym, if_pos hk] at hkv
      exact List.mem_cons_of_mem _ (ih kv hkv)
    · rw [delSym, if_neg hk] at hkv
      rcases List.mem_cons.mp hkv with rfl | hm
      · exact List.mem_cons_self _ _
      · exact List.mem_cons_of_mem _ (ih kv hm)

lemma sideStarts_close_not_open (s : String) (h : sideStarts "close_" s = true) :
    sideStarts "open_" s = false := by
  by_contra hc
  exact open_close_excl s ⟨by simpa using hc, h⟩

lemma stepPos_neutral (m : PosMap) (t : GroupedTrade)
    (ho : sideStarts "open_" t.side = false)
    (hc : sideStarts "close_" t.side = false) :
    stepPos m t = (m, none) := by
  simp [stepPos, ho, hc]

lemma stepPos_open_none (m : PosMap) (t : GroupedTrade)
    (ho : sideStarts "open_" t.side = true) :
    (stepPos m t).2 = none := by
  simp [stepPos, ho]

lemma stepPos_close (m : PosMap) (t : GroupedTrade)
    (hc : sideStarts "close_" t.side = true) :
    stepPos m t =
      (let pos := (lookupSym m t.symbol).getD
        { direction := dirOf t.side, size := t.total_amount, entryTrades := []
          exitTrades := [], startTime := t.first_fill_time }
       let pos2 : OpenPos :=
        { pos with
          size := pos.size - t.total_amount,
          exitTrades := pos.exitTrades ++ [t] }
       if |pos2.size| < 1 / 10000 then
         (delSym (setSym m t.symbol pos2) t.symbol,
          some (createGroupedPosition t.symbol pos2.direction pos2.entryTrades
            pos2.exitTrades pos2.startTime t.last_fill_time))
       else (setSym m t.symbol pos2, none)) := by
  rw [stepPos]
  rw [if_neg (by rw [sideStarts_close_not_open t.side hc]; exact Bool.false_ne_true)]
  rw [if_pos hc]

lemma exitSize_eq (m : PosMap) (t : GroupedTrade) :
    exitSize m t =
      ((lookupSym m t.symbol).getD
        { direction := dirOf t.side, size := t.total_amount, entryTrades := []
          exitTrades := [], startTime := t.first_fill_time }).size - t.total_amount := by
  rw [exitSize]
  cases lookupSym m t.symbol <;> rfl

lemma stepPos_emits_iff (m : PosMap) (t : GroupedTrade) :
    ((stepPos m t).2).isSome = true ↔
      (sideStarts "close_" t.side = true ∧ |exitSize m t| < 1 / 10000) := by
  by_cases hc : sideStarts "close_" t.side = true
  · rw [stepPos_close m t hc, exitSize_eq]
    by_cases hs : |((lookupSym m t.symbol).getD
        { direction := dirOf t.side, size := t.total_amount, entryTrades := []
          exitTrades := [], startTime := t.first_fill_time }).size - t.total_amount| <
        1 / 10000
    · simp only [if_pos hs]
      exact ⟨fun _ => ⟨hc, hs⟩, fun _ => rfl⟩
    · simp only [if_neg hs]
      exact ⟨fun hfalse => absurd hfalse (by simp), fun hand => absurd hand.2 hs⟩
  · have hc' : sideStarts "close_" t.side = false := by simpa using hc
    by_cases ho : sideStarts "open_" t.side = true
    · rw [stepPos_open_none m t ho]
      simp [hc']
    · rw [stepPos_neutral m t (by simpa using ho) hc']
      simp [hc']

lemma stepPos_emit_closed (m : PosMap) (t : GroupedTrade) (p : GroupedPosition)
    (h : (stepPos m t).2 = some p) :
    p.status = PositionStatus.closed ∧
    lookupSym (stepPos m t).1 t.symbol = none ∧
    |exitSize m t| < 1 / 10000 := by
  have hiff := (stepPos_emits_iff m t).mp (by rw [h]; rfl)
  obtain ⟨hc, hs⟩ := hiff
  rw [stepPos_close m t hc] at h ⊢
  rw [exitSize_eq] at hs
  simp only at h ⊢
  rw [if_pos hs] at h ⊢
  refine ⟨?_, ?_, by rw [exitSize_eq]; exact hs⟩
  · obtain rfl : p = createGroupedPosition t.symbol _ _ _ _ t.last_fill_time := by
      simpa using h.symm
    rfl
  · exact lookupSym_delSym _ _

lemma runPos_snd (ts : List GroupedTrade) :
    ∀ m : PosMap, (runPos m ts).2 = (runPosG m ts).map Prod.fst := by
  induction ts with
  | nil => intro m; rfl
  | cons t ts ih =>
    intro m
    rcases h : stepPos m t with ⟨m2, em⟩
    cases em with
    | none => simp [runPos, runPosG, h, ih]
    | some p => simp [runPos, runPosG, h, ih]

lemma runPosG_sound (ts : List GroupedTrade) :
    ∀ m : PosMap, ∀ pr ∈ runPosG m ts,
      pr.1.status = PositionStatus.closed ∧ |pr.2| < 1 / 10000 := by
  induction ts with
  | nil => intro m pr hpr; cases hpr
  | cons t ts ih =>
    intro m pr hpr
    rcases h : stepPos m t with ⟨m2, em⟩
    cases em with
    | none =>
      rw [runPosG, h] at hpr
      exact ih m2 pr hpr
    | some p =>
      rw [runPosG, h] at hpr
      rcases List.mem_cons.mp hpr with rfl | hm
      · have hp := stepPos_emit_closed m t p (by rw [h])
        exact ⟨hp.1, hp.2.2⟩
      · exact ih m2 pr hm

lemma flushOpen_status (m : PosMap) (p : GroupedPosition) (h : p ∈ flushOpen m) :
    p.status = PositionStatus.opened := by
  rw [flushOpen] at h
  obtain ⟨kv, _, rfl⟩ := List.mem_map.mp h
  rfl

/-- C3: a step of the position loop emits a position exactly when the trade
is an exit (`close_` side) and, after it is applied, the accumulator size
has absolute value below the fixed epsilon 0.0001; such a position has
status `closed` and the symbol's accumulator is deleted at that moment.
Consequently every position in `groupByPosition`'s output with status
`closed` was emitted at a loop step whose accumulator size at emission had
absolute value below 0.0001. -/
theorem groupByPosition_closed_emission (m : PosMap) (t : GroupedTrade)
    (ts : List GroupedTrade) (p : GroupedPosition) :
    (((stepPos m t).2).isSome = true ↔
      (sideStarts "close_" t.side = true ∧ |exitSize m t| < 1 / 10000)) ∧
    (∀ q, (stepPos m t).2 = some q →
      q.status = PositionStatus.closed ∧
      lookupSym (stepPos m t).1 t.symbol = none) ∧
    (p ∈ groupByPosition ts → p.status = PositionStatus.closed →
      ∃ s : ℚ, (p, s) ∈ runPosG [] (sortTrades ts) ∧ |s| < 1 / 10000) := by
  refine ⟨stepPos_emits_iff m t, ?_, ?_⟩
  · intro q hq
    have h := stepPos_emit_closed m t q hq
    exact ⟨h.1, h.2.1⟩
  · intro hp hst
    rw [groupByPosition] at hp
    have hp2 := (List.mem_insertionSort _).mp hp
    rcases List.mem_append.mp hp2 with hloop | hflush
    · rw [runPos_snd] at hloop
      obtain ⟨pr, hpr, hfst⟩ := List.mem_map.mp hloop
      obtain ⟨p0, s0⟩ := pr
      have hfst' : p0 = p := hfst
      refine ⟨s0, ?_, (runPosG_sound (sortTrades ts) [] (p0, s0) hpr).2⟩
      rw [← hfst']
      exact hpr
    · have := flushOpen_status _ _ hflush
      rw [this] at hst
      cases hst

lemma singleClose_eval (t : GroupedTrade) (hc : sideStarts "close_" t.side = true) :
    stepPos [] t =
      ([], some (createGroupedPosition t.symbol (dirOf t.side) [] [t]
        t.first_fill_time t.last_fill_time)) ∧
    runPosG [] (sortTrades [t]) =
      [(createGroupedPosition t.symbol (dirOf t.side) [] [t]
          t.first_fill_time t.last_fill_time, exitSize [] t)] ∧
    groupByPosition [t] =
      [createGroupedPosition t.symbol (dirOf t.side) [] [t]
        t.first_fill_time t.last_fill_time] := by
  have hstep : stepPos [] t =
      ([], some (createGroupedPosition t.symbol (dirOf t.side) [] [t]
        t.first_fill_time t.last_fill_time)) := by
    rw [stepPos_close [] t hc]
    simp only [lookupSym, Option.getD_none]
    rw [if_pos (show |t.total_amount - t.total_amount| < 1 / 10000 by
      rw [sub_self, abs_zero]; norm_num)]
    simp [setSym, delSym]
  have hsort : sortTrades [t] = [t] := by
    simp [sortTrades, List.insertionSort]
  refine ⟨hstep, ?_, ?_⟩
  · rw [hsort]
    simp [runPosG, hstep]
  · rw [groupByPosition, hsort]
    simp [runPos, hstep, flushOpen, List.insertionSort]

/-- Trade used by the `groupByPosition_closed_emission` witness. -/
def c3trade : GroupedTrade :=
  { trade_id := OrderKey.byOrder 9, order_id := some 9, symbol := "ETH"
    side := "close_short", total_amount := 2, average_price := 95
    total_value := 190, total_fee := 0, total_pnl := 10, entry_price := none
    first_fill_time := 5000, last_fill_time := 5000
    first_fill_time_readable := none, last_fill_time_readable := none
    fills := [], fill_count := 0 }

/-- Concrete instantiation of `groupByPosition_closed_emission`: the closed
position emitted for a lone exit trade is recorded with accumulator size 0. -/
theorem groupByPosition_closed_emission_witness :
    ∃ s : ℚ,
      (createGroupedPosition "ETH" Dir.short [] [c3trade] 5000 5000, s) ∈
        runPosG [] (sortTrades [c3trade]) ∧
      |s| < 1 / 10000 :=
  (groupByPosition_closed_emission [] c3trade [c3trade]
      (createGroupedPosition "ETH" Dir.short [] [c3trade] 5000 5000)).2.2
    (by rw [(singleClose_eval c3trade (by decide)).2.2]
        exact List.mem_singleton.mpr rfl)
    rfl

/-- C7: a single close-side trade processed by `groupByPosition` with no
existing accumulator for its symbol produces exactly one Position, with
status `closed`: the accumulator is seeded with the trade direction and
amount as size, the same amount is then subtracted, so the size at the
epsilon test is exactly 0 and the position closes immediately (no error is
raised — the embedding is total). -/
theorem groupByPosition_unmatched_close (t : GroupedTrade)
    (hc : sideStarts "close_" t.side = true) :
    groupByPosition [t] =
      [createGroupedPosition t.symbol (dirOf t.side) [] [t]
        t.first_fill_time t.last_fill_time] ∧
    (createGroupedPosition t.symbol (dirOf t.side) [] [t]
      t.first_fill_time t.last_fill_time).status = PositionStatus.closed ∧
    exitSize [] t = 0 := by
  have hz : exitSize [] t = 0 := by
    rw [exitSize_eq]
    show t.total_amount - t.total_amount = 0
    exact sub_self _
  exact ⟨(singleClose_eval t hc).2.2, rfl, hz⟩

/-- Trade used by the `groupByPosition_unmatched_close` witness. -/
def c7trade : GroupedTrade :=
  { trade_id := OrderKey.byHistory 14, order_id := none, symbol := "SOL"
    side := "close_short", total_amount := 3, average_price := 20
    total_value := 60, total_fee := 0, total_pnl := -1, entry_price := none
    first_fill_time := 8000, last_fill_time := 8100
    first_fill_time_readable := none, last_fill_time_readable := none
    fills := [], fill_count := 0 }

/-- Concrete instantiation of `groupByPosition_unmatched_close` on a lone
`close_short` trade. -/
theorem groupByPosition_unmatched_close_witness :
    groupByPosition [c7trade] =
      [createGroupedPosition c7trade.symbol (dirOf c7trade.side) [] [c7trade]
        c7trade.first_fill_time c7trade.last_fill_time] ∧
    (createGroupedPosition c7trade.symbol (dirOf c7trade.side) [] [c7trade]
      c7trade.first_fill_time c7trade.last_fill_time).status =
      PositionStatus.closed ∧
    exitSize [] c7trade = 0 :=
  groupByPosition_unmatched_close c7trade (by decide)

lemma legPrice_nil : legPrice ([] : List GroupedTrade) = 0 := by
  simp [legPrice, legAmount, legValue]

lemma singleOpen_eval (t : GroupedTrade) (ho : sideStarts "open_" t.side = true) :
    groupByPosition [t] =
      [{ createGroupedPosition t.symbol (dirOf t.side) [t] []
          t.first_fill_time t.first_fill_time with status := PositionStatus.opened }] := by
  have hstep : stepPos [] t =
      ([(t.symbol,
          { direction := dirOf t.side, size := t.total_amount, entryTrades := [t]
            exitTrades := [], startTime := t.first_fill_time })], none) := by
    simp [stepPos, ho, lookupSym, setSym]
  rw [groupByPosition]
  rw [show sortTrades [t] = [t] by simp [sortTrades, List.insertionSort]]
  simp [runPos, hstep, flushOpen, openCloseTime, List.insertionSort]

/-- C8: a constructed Position's `pnl_percentage` is the `'N/A'` sentinel
exactly when no exit price exists (the weighted exit price is not positive),
and likewise for `exit_price`; when exit and entry prices are positive,
`pnl_percentage` is the direction-scaled relative move — long:
`(exit-entry)/entry`, short: `(entry-exit)/entry` — times 100 (at the stated
2-decimal rounding); and a single open-side trade yields exactly one
Position, with status `open`, `exit_price` `'N/A'` and `pnl_percentage`
`'N/A'`. -/
theorem createGroupedPosition_pnl_sentinel (symbol : String) (d : Dir)
    (et xt : List GroupedTrade) (ot ct : Int) (t : GroupedTrade) :
    ((createGroupedPosition symbol d et xt ot ct).pnl_percentage = none ↔
      ¬(0 < legPrice xt)) ∧
    ((createGroupedPosition symbol d et xt ot ct).exit_price = none ↔
      ¬(0 < legPrice xt)) ∧
    (0 < legPrice xt → 0 < legPrice et →
      (createGroupedPosition symbol d et xt ot ct).pnl_percentage =
        some (toFixedQ 2 ((if d = Dir.long then legPrice xt - legPrice et
          else legPrice et - legPrice xt) / legPrice et * 100))) ∧
    (sideStarts "open_" t.side = true →
      ∃ q, groupByPosition [t] = [q] ∧ q.status = PositionStatus.opened ∧
        q.exit_price = none ∧ q.pnl_percentage = none) := by
  have hpnl : (createGroupedPosition symbol d et xt ot ct).pnl_percentage =
      (if 0 < legPrice xt then
        some (toFixedQ 2 (if 0 < legPrice xt ∧ 0 < legPrice et then
          (if d = Dir.long then legPrice xt - legPrice et
            else legPrice et - legPrice xt) / legPrice et * 100
          else 0))
      else none) := rfl
  have hexit : (createGroupedPosition symbol d et xt ot ct).exit_price =
      (if 0 < legPrice xt then some (toFixedQ 6 (legPrice xt)) else none) := rfl
  refine ⟨?_, ?_, ?_, ?_⟩
  · rw [hpnl]
    by_cases h : 0 < legPrice xt
    · simp [h]
    · simp [h]
  · rw [hexit]
    by_cases h : 0 < legPrice xt
    · simp [h]
    · simp [h]
  · intro hx he
    rw [hpnl, if_pos hx, if_pos ⟨hx, he⟩]
  · intro ho
    refine ⟨_, singleOpen_eval t ho, rfl, ?_, ?_⟩
    · show (if 0 < legPrice ([] : List GroupedTrade) then
          some (toFixedQ 6 (legPrice ([] : List GroupedTrade))) else none) = none
      rw [legPrice_nil]
      norm_num
    · show (if 0 < legPrice ([] : List GroupedTrade) then
          some (toFixedQ 2 (if 0 < legPrice ([] : List GroupedTrade) ∧ 0 < legPrice [t] then
            (if dirOf t.side = Dir.long then
              legPrice ([] : List GroupedTrade) - legPrice [t]
            else legPrice [t] - legPrice ([] : List GroupedTrade)) / legPrice [t] * 100
          else 0)) else none) = none
      rw [legPrice_nil]
      norm_num

/-- Entry trade used by the `createGroupedPosition_pnl_sentinel` witness. -/
def c8entryTr : GroupedTrade :=
  { trade_id := OrderKey.byOrder 21, order_id := some 21, symbol := "BTC"
    side := "open_long", total_amount := 1, average_price := 100
    total_value := 100, total_fee := 0, total_pnl := 0, entry_price := none
    first_fill_time := 1000, last_fill_time := 1000
    first_fill_time_readable := none, last_fill_time_readable := none
    fills := [], fill_count := 0 }

/-- Exit trade used by the `createGroupedPosition_pnl_sentinel` witness. -/
def c8exitTr : GroupedTrade :=
  { trade_id := OrderKey.byOrder 22, order_id := some 22, symbol := "BTC"
    side := "close_long", total_amount := 1, average_price := 110
    total_value := 110, total_fee := 0, total_pnl := 10, entry_price := none
    first_fill_time := 2000, last_fill_time := 2000
    first_fill_time_readable := none, last_fill_time_readable := none
    fills := [], fill_count := 0 }

/-- Concrete instantiation of `createGroupedPosition_pnl_sentinel`: a closed
long round trip gets the direction-scaled percentage, a dangling open trade
gets the sentinels. -/
theorem createGroupedPosition_pnl_sentinel_witness :
    (createGroupedPosition "BTC" Dir.long [c8entryTr] [c8exitTr] 1000 2000).pnl_percentage =
      some (toFixedQ 2 ((if Dir.long = Dir.long then
          legPrice [c8exitTr] - legPrice [c8entryTr]
        else legPrice [c8entryTr] - legPrice [c8exitTr]) / legPrice [c8entryTr] * 100)) ∧
    (∃ q, groupByPosition [c8entryTr] = [q] ∧ q.status = PositionStatus.opened ∧
      q.exit_price = none ∧ q.pnl_percentage = none) :=
  ⟨(createGroupedPosition_pnl_sentinel "BTC" Dir.long [c8entryTr] [c8exitTr]
      1000 2000 c8entryTr).2.2.1
      (by with_unfolding_all decide) (by with_unfolding_all decide),
   (createGroupedPosition_pnl_sentinel "BTC" Dir.long [c8entryTr] [c8exitTr]
      1000 2000 c8entryTr).2.2.2 (by decide)⟩

/-- All trades accumulated in a per-symbol accumulator entered through the
open branch (entry list) or the close branch (exit list). -/
def posAccTagged (a : OpenPos) : Prop :=
  (∀ u ∈ a.entryTrades, sideStarts "open_" u.side = true) ∧
  (∀ u ∈ a.exitTrades, sideStarts "close_" u.side = true)

/-- `posAccTagged` holds of every accumulator in the map. -/
def mapTagged (m : PosMap) : Prop := ∀ kv ∈ m, posAccTagged kv.2

lemma setSym_tagged (m : PosMap) (s : String) (v : OpenPos)
    (hm : mapTagged m) (hv : posAccTagged v) : mapTagged (setSym m s v) := by
  intro kv hkv
  rcases setSym_mem m s v kv hkv with rfl | h
  · exact hv
  · exact hm kv h

lemma delSym_tagged (m : PosMap) (s : String) (hm : mapTagged m) :
    mapTagged (delSym m s) :=
  fun kv hkv => hm kv (delSym_mem m s kv hkv)

lemma lookup_getD_tagged (m : PosMap) (sym : String) (seed : OpenPos)
    (hm : mapTagged m) (hseed : posAccTagged seed) :
    posAccTagged ((lookupSym m sym).getD seed) := by
  cases hl : lookupSym m sym with
  | none => exact hseed
  | some v => exact hm (sym, v) (lookupSym_mem m sym v hl)

lemma stepPos_tagged (m : PosMap) (t : GroupedTrade) (hm : mapTagged m) :
    mapTagged (stepPos m t).1 ∧
    (∀ p, (stepPos m t).2 = some p →
      ∀ u ∈ p.trades,
        sideStarts "open_" u.side = true ∨ sideStarts "close_" u.side = true) := by
  by_cases ho : sideStarts "open_" t.side = true
  · have hpos := lookup_getD_tagged m t.symbol
      { direction := dirOf t.side, size := 0, entryTrades := [], exitTrades := []
        startTime := t.first_fill_time } hm ⟨by simp, by simp⟩
    set pos := (lookupSym m t.symbol).getD
      { direction := dirOf t.side, size := 0, entryTrades := [], exitTrades := []
        startTime := t.first_fill_time } with hposdef
    have hstep : stepPos m t =
        (setSym m t.symbol
          { pos with
            size := pos.size + t.total_amount,
            entryTrades := pos.entryTrades ++ [t] }, none) := by
      rw [stepPos]
      rw [if_pos ho]
    rw [hstep]
    refine ⟨?_, by intro p hp; cases hp⟩
    refine setSym_tagged _ _ _ hm ⟨?_, ?_⟩
    · intro u hu
      rcases List.mem_append.mp hu with h | h
      · exact hpos.1 u h
      · rw [List.mem_singleton] at h
        subst h
        exact ho
    · exact hpos.2
  · by_cases hc : sideStarts "close_" t.side = true
    · have hpos := lookup_getD_tagged m t.symbol
        { direction := dirOf t.side, size := t.total_amount, entryTrades := []
          exitTrades := [], startTime := t.first_fill_time } hm ⟨by simp, by simp⟩
      set pos := (lookupSym m t.symbol).getD
        { direction := dirOf t.side, size := t.total_amount, entryTrades := []
          exitTrades := [], startTime := t.first_fill_time } with hposdef
      have hpos2 : posAccTagged
          { pos with
            size := pos.size - t.total_amount,
            exitTrades := pos.exitTrades ++ [t] } := by
        refine ⟨hpos.1, ?_⟩
        intro u hu
        rcases List.mem_append.mp hu with h | h
        · exact hpos.2 u h
        · rw [List.mem_singleton] at h
          subst h
          exact hc
      have hstep := stepPos_close m t hc
      rw [← hposdef] at hstep
      simp only at hstep
      by_cases hs : |pos.size - t.total_amount| < 1 / 10000
      · rw [hstep, if_pos hs]
        constructor
        · exact delSym_tagged _ _ (setSym_tagged _ _ _ hm hpos2)
        · intro p hp u hu
          obtain rfl : createGroupedPosition t.symbol
              ({ pos with
                size := pos.size - t.total_amount,
                exitTrades := pos.exitTrades ++ [t] } : OpenPos).direction
              pos.entryTrades (pos.exitTrades ++ [t]) pos.startTime
              t.last_fill_time = p := by simpa using hp
          have htr : (createGroupedPosition t.symbol
              ({ pos with
                size := pos.size - t.total_amount,
                exitTrades := pos.exitTrades ++ [t] } : OpenPos).direction
              pos.entryTrades (pos.exitTrades ++ [t]) pos.startTime
              t.last_fill_time).trades = pos.entryTrades ++ (pos.exitTrades ++ [t]) := rfl
          rw [htr] at hu
          rcases List.mem_append.mp hu with h | h
          · exact Or.inl (hpos.1 u h)
          · exact Or.inr (hpos2.2 u h)
      · rw [hstep, if_neg hs]
        exact ⟨setSym_tagged _ _ _ hm hpos2, by intro p hp; cases hp⟩
    · rw [stepPos_neutral m t (by simpa using ho) (by simpa using hc)]
      exact ⟨hm, by intro p hp; cases hp⟩

lemma runPos_tagged (ts : List GroupedTrade) :
    ∀ m : PosMap, mapTagged m →
      mapTagged (runPos m ts).1 ∧
      ∀ p ∈ (runPos m ts).2, ∀ u ∈ p.trades,
        sideStarts "open_" u.side = true ∨ sideStarts "close_" u.side = true := by
  induction ts with
  | nil => intro m hm; exact ⟨hm, by intro p hp; cases hp⟩
  | cons t ts ih =>
    intro m hm
    have hstep := stepPos_tagged m t hm
    rcases h : stepPos m t with ⟨m2, em⟩
    rw [h] at hstep
    cases em with
    | none =>
      rw [runPos, h]
      exact ih m2 hstep.1
    | some p =>
      rw [runPos, h]
      refine ⟨(ih m2 hstep.1).1, ?_⟩
      intro q hq u hu
      simp only at hq
      rcases List.mem_cons.mp hq with rfl | hq2
      · exact hstep.2 q rfl u hu
      · exact (ih m2 hstep.1).2 q hq2 u hu

lemma flushOpen_trades (m : PosMap) (hm : mapTagged m) :
    ∀ p ∈ flushOpen m, ∀ u ∈ p.trades,
      sideStarts "open_" u.side = true ∨ sideStarts "close_" u.side = true := by
  intro p hp u hu
  rw [flushOpen] at hp
  obtain ⟨kv, hkv, rfl⟩ := List.mem_map.mp hp
  have htr : ({ createGroupedPosition kv.1 kv.2.direction kv.2.entryTrades
      kv.2.exitTrades kv.2.startTime (openCloseTime kv.2) with
      status := PositionStatus.opened }).trades =
      kv.2.entryTrades ++ kv.2.exitTrades := rfl
  rw [htr] at hu
  rcases List.mem_append.mp hu with h | h
  · exact Or.inl ((hm kv hkv).1 u h)
  · exact Or.inr ((hm kv hkv).2 u h)

/-- C10: a trade whose side starts with neither `open_` nor `close_` is
silently ignored by the position loop — the step leaves the accumulator map
unchanged and emits nothing — and consequently every trade appearing in the
trades list of any position emitted by `groupByPosition` has an `open_` or
`close_` side, so a neutral-sided trade appears in no emitted Position. -/
theorem groupByPosition_ignores_neutral (m : PosMap) (t : GroupedTrade)
    (ts : List GroupedTrade) (p : GroupedPosition) (u : GroupedTrade) :
    ((sideStarts "open_" t.side = false ∧ sideStarts "close_" t.side = false) →
      stepPos m t = (m, none)) ∧
    (p ∈ groupByPosition ts → u ∈ p.trades →
      sideStarts "open_" u.side = true ∨ sideStarts "close_" u.side = true) := by
  constructor
  · intro h
    exact stepPos_neutral m t h.1 h.2
  · intro hp hu
    rw [groupByPosition] at hp
    have hp2 := (List.mem_insertionSort _).mp hp
    have hrun := runPos_tagged (sortTrades ts) [] (by intro kv hkv; cases hkv)
    rcases List.mem_append.mp hp2 with hloop | hflush
    · exact hrun.2 p hloop u hu
    · exact flushOpen_trades _ hrun.1 p hflush u hu

/-- Neutral-sided trade used by the `groupByPosition_ignores_neutral`
witness. -/
def c10neutral : GroupedTrade :=
  { trade_id := OrderKey.byHistory 31, order_id := none, symbol := "DOGE"
    side := "funding", total_amount := 4, average_price := 1
    total_value := 4, total_fee := 0, total_pnl := 0, entry_price := none
    first_fill_time := 100, last_fill_time := 100
    first_fill_time_readable := none, last_fill_time_readable := none
    fills := [], fill_count := 0 }

/-- Close-sided trade used by the `groupByPosition_ignores_neutral`
witness. -/
def c10close : GroupedTrade :=
  { trade_id := OrderKey.byOrder 32, order_id := some 32, symbol := "DOGE"
    side := "close_long", total_amount := 4, average_price := 1
    total_value := 4, total_fee := 0, total_pnl := 0, entry_price := none
    first_fill_time := 200, last_fill_time := 200
    first_fill_time_readable := none, last_fill_time_readable := none
    fills := [], fill_count := 0 }

/-- Concrete instantiation of `groupByPosition_ignores_neutral`: a
`funding`-sided trade is a no-op step, and the trade found inside the
emitted position of a lone close is close-sided. -/
theorem groupByPosition_ignores_neutral_witness :
    stepPos [] c10neutral = ([], none) ∧
    (sideStarts "open_" c10close.side = true ∨
      sideStarts "close_" c10close.side = true) :=
  ⟨(groupByPosition_ignores_neutral [] c10neutral [c10close]
      (createGroupedPosition c10close.symbol (dirOf c10close.side) [] [c10close]
        c10close.first_fill_time c10close.last_fill_time) c10close).1
      ⟨by decide, by decide⟩,
   (groupByPosition_ignores_neutral [] c10neutral [c10close]
      (createGroupedPosition c10close.symbol (dirOf c10close.side) [] [c10close]
        c10close.first_fill_time c10close.last_fill_time) c10close).2
      (by rw [(singleClose_eval c10close (by decide)).2.2]
          exact List.mem_singleton.mpr rfl)
      (List.mem_cons_self _ _)⟩
